import Mathlib

/-!
Verification of the `auditor_agent` repository's response post-processing
(`src/auditor_agent/tools.py`, function `json_to_markdown_table`) and the
statically built agent pipeline (`src/auditor_agent/agent.py`).

The Python function intercepts an LLM response, extracts the first part whose
text parses as JSON, and — when the payload is a dict with a "corrections"
list or directly a list — filters out no-op corrections, renumbers the rest,
and substitutes the response with a rendered Markdown table.

We shallowly embed the parsed-JSON value space (`json.loads` output: null,
bool, int, string, array, object; floats do not occur in any behaviour the
claims exercise and are omitted), Python's `str()`/`.strip()`/`.replace()`
on such values, and the function's control flow.  `json.loads` itself is an
external library call and is modelled as a parameter
`loads : String → Option JSON` (`none` = `JSONDecodeError`).
-/

/-- The value space of Python's `json.loads`: `None`, `bool`, `int`, `str`,
`list`, `dict` (keys are strings; `json.loads` produces unique keys). -/
inductive JSON where
  | null : JSON
  | bool : Bool → JSON
  | int : Int → JSON
  | str : String → JSON
  | arr : List JSON → JSON
  | dict : List (String × JSON) → JSON

/-- A Python dict as produced by `json.loads`: an ordered association list. -/
abbrev Assoc := List (String × JSON)

/-- Single-quote character (Python's preferred string-repr quote). -/
def squote : Char := Char.ofNat 39

/-- Double-quote character. -/
def dquote : Char := Char.ofNat 34

/-- Models Python's escaping of one character inside `repr` of a `str`,
given the chosen surrounding quote character. -/
def pyCharEscape (quote c : Char) : String :=
  if c = '\\' then "\\\\"
  else if c = quote then "\\" ++ String.mk [quote]
  else if c = '\n' then "\\n"
  else if c = '\r' then "\\r"
  else if c = '\t' then "\\t"
  else String.mk [c]

/-- Models Python's `repr` of a `str`: single quotes, switching to double
quotes when the string contains a single quote but no double quote. -/
def pyStrRepr (s : String) : String :=
  let quote := if s.data.contains squote ∧ ¬ s.data.contains dquote then dquote else squote
  String.mk [quote] ++ String.join (s.data.map (pyCharEscape quote)) ++ String.mk [quote]

mutual

/-- Models Python's `repr` on a `json.loads` value. -/
def pyRepr : JSON → String
  | JSON.null => "None"
  | JSON.bool true => "True"
  | JSON.bool false => "False"
  | JSON.int n => toString n
  | JSON.str s => pyStrRepr s
  | JSON.arr xs => "[" ++ pyReprList xs ++ "]"
  | JSON.dict kvs => "\x7b" ++ pyReprDict kvs ++ "\x7d"

/-- Comma-separated `repr`s of a list's elements. -/
def pyReprList : List JSON → String
  | [] => ""
  | [x] => pyRepr x
  | x :: y :: rest => pyRepr x ++ ", " ++ pyReprList (y :: rest)

/-- Comma-separated `key: value` `repr`s of a dict's items. -/
def pyReprDict : List (String × JSON) → String
  | [] => ""
  | [(k, v)] => pyStrRepr k ++ ": " ++ pyRepr v
  | (k, v) :: p :: rest => pyStrRepr k ++ ": " ++ pyRepr v ++ ", " ++ pyReprDict (p :: rest)

end

/-- Models Python's `str()` on a `json.loads` value: identity on `str`,
`"None"`/`"True"`/`"False"` on `None`/`bool`, decimal on `int`, `repr`-based
rendering on containers. -/
def pyStr : JSON → String
  | JSON.str s => s
  | JSON.null => "None"
  | JSON.bool true => "True"
  | JSON.bool false => "False"
  | JSON.int n => toString n
  | JSON.arr xs => pyRepr (JSON.arr xs)
  | JSON.dict kvs => pyRepr (JSON.dict kvs)

/-- ASCII whitespace stripped by Python's `str.strip()` (the claims never
exercise non-ASCII whitespace). -/
def isPyWs (c : Char) : Bool :=
  c = ' ' || c = Char.ofNat 9 || c = Char.ofNat 10 || c = Char.ofNat 11 ||
  c = Char.ofNat 12 || c = Char.ofNat 13

/-- Models Python's `str.strip()`: drop leading and trailing whitespace. -/
def pyStrip (s : String) : String :=
  String.mk (((s.data.dropWhile isPyWs).reverse.dropWhile isPyWs).reverse)

/-- Python dict lookup `d.get(k)` on an association list with unique keys. -/
def lookupKey (k : String) : Assoc → Option JSON
  | [] => none
  | (k2, v) :: rest => if k2 = k then some v else lookupKey k rest

/-- Python dict assignment `d[k] = v`: update in place if the key exists
(keeping its position), else append at the end. -/
def setKey (k : String) (v : JSON) : Assoc → Assoc
  | [] => [(k, v)]
  | (k2, v2) :: rest => if k2 = k then (k, v) :: rest else (k2, v2) :: setKey k v rest

/-- Models `str(item.get(k, ""))` from the filter step of
`json_to_markdown_table`: missing key defaults to `""`; a present JSON
`null` is Python `None`, so it renders as `"None"` here. -/
def getFieldStr (k : String) (kvs : Assoc) : String :=
  match lookupKey k kvs with
  | none => ""
  | some v => pyStr v

/-- The filter predicate of `json_to_markdown_table` (tools.py lines 61-71):
a dict record is kept iff its trimmed `text_before_revision` differs from
its trimmed `text_after_revision`. -/
def keepKvs (kvs : Assoc) : Bool :=
  pyStrip (getFieldStr "text_before_revision" kvs) ≠
    pyStrip (getFieldStr "text_after_revision" kvs)

/-- The filtering loop of `json_to_markdown_table` (tools.py lines 58-71):
keeps exactly the dict elements whose trimmed before/after texts differ;
non-dict elements are skipped. -/
def filterStep : List JSON → List Assoc
  | [] => []
  | JSON.dict kvs :: rest =>
      if keepKvs kvs then kvs :: filterStep rest else filterStep rest
  | _ :: rest => filterStep rest

/-- The renumbering loop `for i, item in enumerate(filtered_data, 1):
item["correction_number"] = i` (tools.py lines 74-75), with `n` the number
of records already numbered. -/
def renumberFrom (n : Nat) : List Assoc → List Assoc
  | [] => []
  | kvs :: rest =>
      setKey "correction_number" (JSON.int (Int.ofNat (n + 1))) kvs ::
        renumberFrom (n + 1) rest

/-- Filter followed by renumbering: the list of records that become the
table's data rows. -/
def rowRecords (jsonData : List JSON) : List Assoc :=
  renumberFrom 0 (filterStep jsonData)

/-- The fixed preferred column order of `json_to_markdown_table`
(tools.py lines 86-95). -/
def desired_order : List String :=
  ["correction_number", "severity", "violation_category", "specific_location",
   "text_before_revision", "text_after_revision", "reason_for_revision", "rule_id"]

/-- Whether key `k` occurs in at least one record (membership in `all_keys`,
tools.py lines 80-83). -/
def keyInData (k : String) (l : List Assoc) : Bool :=
  l.any (fun kvs => kvs.any (fun p => p.1 = k))

/-- All keys occurring in the data, first occurrences kept, in record order
(the `all_keys` set; only membership and its sorted residue are ever used,
so the collection order is irrelevant after sorting). -/
def allKeys (l : List Assoc) : List String :=
  (l.flatMap (fun kvs => kvs.map Prod.fst)).eraseDups

/-- Insert a string into a ≤-sorted list of strings, keeping it sorted. -/
def insertSorted (s : String) : List String → List String
  | [] => [s]
  | t :: ts => if s ≤ t then s :: t :: ts else t :: insertSorted s ts

/-- A stable comparison sort by string order, modelling Python's
`sorted` on a set of strings (the elements are distinct, so any
comparison sort yields the same list). -/
def pySort : List String → List String
  | [] => []
  | s :: ss => insertSorted s (pySort ss)

/-- The header computation of `json_to_markdown_table` (tools.py lines
97-102): preferred keys that occur in the data, in preferred order, then the
remaining keys sorted lexicographically. -/
def computeHeaders (l : List Assoc) : List String :=
  let hs := desired_order.filter (fun k => keyInData k l)
  hs ++ pySort ((allKeys l).filter (fun k => ¬ hs.contains k))

/-- Models `value.replace("|", "\\|")` (tools.py line 122): the pattern is a
single character, so left-to-right non-overlapping replacement is a
character-wise expansion. -/
def escapePipes : List Char → List Char
  | [] => []
  | c :: cs => if c = '|' then '\\' :: '|' :: escapePipes cs else c :: escapePipes cs

/-- Models `value.replace("\n", "<br>")` (tools.py line 124). -/
def escapeNewlines : List Char → List Char
  | [] => []
  | c :: cs =>
      if c = '\n' then '<' :: 'b' :: 'r' :: '>' :: escapeNewlines cs
      else c :: escapeNewlines cs

/-- The cell-escaping of `json_to_markdown_table`: escape pipes, then
replace newlines with `<br>`. -/
def escapeCell (s : String) : String :=
  String.mk (escapeNewlines (escapePipes s.data))

/-- Models the cell-value extraction (tools.py lines 115-120):
`item.get(header, "")`, with a Python `None` value rendered as `""`
(unlike the filter step, which renders it as `"None"`). -/
def cellValue (kvs : Assoc) (k : String) : String :=
  match lookupKey k kvs with
  | none => ""
  | some JSON.null => ""
  | some v => pyStr v

/-- Models Python's `sep.join(cells)`. -/
def joinSep (sep : String) : List String → String
  | [] => ""
  | [c] => c
  | c :: c2 :: rest => c ++ sep ++ joinSep sep (c2 :: rest)

/-- One table row: `"| " + " | ".join(cells) + " |"`. -/
def mkRow (cells : List String) : String :=
  "| " ++ joinSep " | " cells ++ " |"

/-- The header row (tools.py line 105). -/
def headerRowStr (headers : List String) : String :=
  mkRow headers

/-- The separator row (tools.py line 108). -/
def sepRowStr (headers : List String) : String :=
  mkRow (headers.map (fun _ => "---"))

/-- One data row (tools.py lines 112-128). -/
def dataRowStr (headers : List String) (kvs : Assoc) : String :=
  mkRow (headers.map (fun h => escapeCell (cellValue kvs h)))

/-- The fixed heading prepended to the table (tools.py line 131). -/
def tableHeading : String :=
  "\n## Document Audit Results\n\nThe following table shows the audit findings:\n\n"

/-- The full rendered Markdown table for an accepted payload list
(tools.py lines 57-132). -/
def renderTable (jsonData : List JSON) : String :=
  let fd := rowRecords jsonData
  let headers := computeHeaders fd
  tableHeading ++
    joinSep "\n" (headerRowStr headers :: sepRowStr headers :: fd.map (dataRowStr headers))

/-- A content part (`google.genai.types.Part`; that name is taken in Mathlib): optional text. -/
structure ContentPart where
  text : Option String

/-- Message content (`google.genai.types.Content`): optional role and an
optional list of parts. -/
structure Content where
  role : Option String
  parts : Option (List ContentPart)

/-- An LLM response (`google.adk.models.llm_response.LlmResponse`):
optional content. -/
structure LlmResponse where
  content : Option Content

/-- The substituted response built at tools.py lines 133-138: a single text
part holding the rendered table, role hard-coded to "model". -/
def renderResponse (jsonData : List JSON) : LlmResponse :=
  { content := some { role := some "model",
                      parts := some [ContentPart.mk (some (renderTable jsonData))] } }

/-- The part-scanning loop of `json_to_markdown_table` (tools.py lines
37-49): find the first part whose text parses; on the first successful
parse, take `parsed["corrections"]` if the parse is a dict containing that
key, the parse itself if it is a list, and Python `None` otherwise, then
stop scanning (`break`).  A JSON `null` value is Python `None`, hence
indistinguishable from "not set" by the `json_data is None` test. -/
def scanParts (loads : String → Option JSON) : List ContentPart → Option JSON
  | [] => none
  | p :: ps =>
      match p.text with
      | none => scanParts loads ps
      | some t =>
          match loads t with
          | none => scanParts loads ps
          | some (JSON.dict kvs) =>
              match lookupKey "corrections" kvs with
              | some JSON.null => none
              | some v => some v
              | none => none
          | some (JSON.arr xs) => some (JSON.arr xs)
          | some _ => none

/-- The accepted-payload extraction implicit in tools.py lines 29-55: the
cases in which the function does NOT return the original response are
exactly those in which this yields `some` list. -/
def acceptedPayload (loads : String → Option JSON) (resp : LlmResponse) :
    Option (List JSON) :=
  match resp.content with
  | none => none
  | some content =>
      match content.parts with
      | none => none
      | some [] => none
      | some parts =>
          match scanParts loads parts with
          | some (JSON.arr xs) => some xs
          | _ => none

/-- Shallow embedding of `json_to_markdown_table` (tools.py lines 24-139),
with `json.loads` supplied as `loads`. -/
def json_to_markdown_table (loads : String → Option JSON)
    (llm_response : LlmResponse) : LlmResponse :=
  match llm_response.content with
  | none => llm_response
  | some content =>
      match content.parts with
      | none => llm_response
      | some [] => llm_response
      | some parts =>
          match scanParts loads parts with
          | none => llm_response
          | some (JSON.arr jsonData) => renderResponse jsonData
          | some _ => llm_response

/-- The statically declared fields of one `LlmAgent` in agent.py that the
claims are about (instruction text is loaded from external prompt files and
plays no role in the pipeline structure). -/
structure LlmAgentDecl where
  name : String
  model : String
  output_key : Option String

/-- agent.py lines 37-45: the file-retrieval agent. -/
def file_retrieval_agent : LlmAgentDecl :=
  { name := "file_retrieval_agent", model := "gemini-2.5-pro",
    output_key := some "file_content" }

/-- agent.py lines 49-56: the first-pass spelling/grammar auditor. -/
def spelling_grammar_auditor_agent : LlmAgentDecl :=
  { name := "spelling_grammar_auditor_agent", model := "gemini-2.5-pro",
    output_key := some "spelling_grammar_audit_result" }

/-- agent.py lines 60-68: the second-pass guidelines-compliance auditor. -/
def guidelines_compliance_auditor_agent : LlmAgentDecl :=
  { name := "guidelines_compliance_auditor_agent", model := "gemini-2.5-pro",
    output_key := some "guidelines_compliance_audit_result" }

/-- agent.py lines 72-83: the final aggregator.  Its constructor call passes
no `output_key` argument; its result is delivered through the
`after_model_callback` (`json_to_markdown_table`) instead. -/
def audit_results_aggregator_agent : LlmAgentDecl :=
  { name := "audit_results_aggregator_agent", model := "gemini-2.5-pro",
    output_key := none }

/-- agent.py lines 87-97: the ordered sub-agent list of the
`RFPAuditPipeline` sequential agent. -/
def audit_pipeline_sub_agents : List LlmAgentDecl :=
  [file_retrieval_agent, spelling_grammar_auditor_agent,
   guidelines_compliance_auditor_agent, audit_results_aggregator_agent]

/-- Number of cell-separator pipes in a list of characters: occurrences of
a pipe not immediately preceded by a backslash, `prev` being the character
just before the list (none at the start of a row). -/
def sepCountFrom (prev : Option Char) : List Char → Nat
  | [] => 0
  | c :: cs =>
      (if c = '|' ∧ prev ≠ some '\\' then 1 else 0) + sepCountFrom (some c) cs

/-- Number of unescaped pipes (column separators) in a rendered row. -/
def sepCount (s : String) : Nat := sepCountFrom none s.data

/-- Whether a `json.loads` value is a Python dict
(`isinstance(item, dict)`). -/
def isDict : JSON → Bool
  | JSON.dict _ => true
  | _ => false

/-- The association list of a dict value, `none` on non-dicts. -/
def asDict : JSON → Option Assoc
  | JSON.dict kvs => some kvs
  | _ => none

/-- The character just before the end of `prev ++ l` (used to thread the
"previous character" through `sepCountFrom` across concatenations). -/
def lastFrom (prev : Option Char) : List Char → Option Char
  | [] => prev
  | c :: cs => lastFrom (some c) cs

/-! ### Concrete fixtures used by witnesses and counterexamples -/

/-- A parser recognising only the text "[]" (an empty corrections array). -/
def loadsEmptyArr : String → Option JSON := fun s =>
  if s = "[]" then some (JSON.arr []) else none

/-- A response whose content role is "user" and whose single part is "[]". -/
def respUserRole : LlmResponse :=
  { content := some { role := some "user", parts := some [ContentPart.mk (some "[]")] } }

/-- A response with no content at all. -/
def respNoContent : LlmResponse := { content := none }

/-- A one-record corrections payload with differing before/after texts. -/
def payloadAB : List JSON :=
  [JSON.dict [("text_before_revision", JSON.str "a"), ("text_after_revision", JSON.str "b")]]

/-- The surviving record of `payloadAB` after renumbering (the number is
appended, since the record carried none). -/
def kvsAB : Assoc :=
  [("text_before_revision", JSON.str "a"), ("text_after_revision", JSON.str "b"),
   ("correction_number", JSON.int 1)]

/-- A parser recognising only the text "p" as `payloadAB`. -/
def loadsAB : String → Option JSON := fun s =>
  if s = "p" then some (JSON.arr payloadAB) else none

/-- A response carrying the single text part "p". -/
def respAB : LlmResponse :=
  { content := some { role := some "model", parts := some [ContentPart.mk (some "p")] } }

/-- `payloadAB` with a bogus supplied correction number 7, replaced in
place by 1 during renumbering. -/
def payloadNum : List JSON :=
  [JSON.dict [("text_before_revision", JSON.str "a"), ("text_after_revision", JSON.str "b"),
    ("correction_number", JSON.int 7)]]

/-- A payload whose record has a key containing a literal pipe character. -/
def payloadPipeKey : List JSON :=
  [JSON.dict [("a|b", JSON.str "x"), ("text_before_revision", JSON.str "p"),
    ("text_after_revision", JSON.str "q")]]

/-- An already-filtered, already-numbered record list. -/
def filteredFix : List Assoc := [kvsAB]

/-- A record carrying only a location and a reason: both revision-text keys
are absent. -/
def kvsLocOnly : Assoc :=
  [("specific_location", JSON.str "S1"), ("reason_for_revision", JSON.str "why")]

/-! ### Helper lemmas -/

theorem lookup_setKey_self (k : String) (v : JSON) (kvs : Assoc) :
    lookupKey k (setKey k v kvs) = some v := by
  induction kvs with
  | nil => simp [setKey, lookupKey]
  | cons p rest ih =>
      obtain ⟨k2, v2⟩ := p
      by_cases h : k2 = k
      · simp [setKey, lookupKey, h]
      · simp [setKey, lookupKey, h, ih]

theorem lookup_setKey_ne (kq k : String) (v : JSON) (kvs : Assoc) (h : kq ≠ k) :
    lookupKey kq (setKey k v kvs) = lookupKey kq kvs := by
  induction kvs with
  | nil =>
      simp only [setKey, lookupKey]
      rw [if_neg (fun hh => h hh.symm)]
  | cons p rest ih =>
      obtain ⟨k2, v2⟩ := p
      by_cases h2 : k2 = k
      · subst h2
        simp only [setKey, if_pos rfl, lookupKey]
        rw [if_neg (fun hh => h hh.symm), if_neg (fun hh => h hh.symm)]
      · simp [setKey, lookupKey, h2, ih]

theorem getFieldStr_setKey_ne (kq k : String) (v : JSON) (kvs : Assoc) (h : kq ≠ k) :
    getFieldStr kq (setKey k v kvs) = getFieldStr kq kvs := by
  simp [getFieldStr, lookup_setKey_ne kq k v kvs h]

theorem keepKvs_setKey_correction_number (v : JSON) (kvs : Assoc) :
    keepKvs (setKey "correction_number" v kvs) = keepKvs kvs := by
  simp [keepKvs,
    getFieldStr_setKey_ne "text_before_revision" "correction_number" v kvs (by decide),
    getFieldStr_setKey_ne "text_after_revision" "correction_number" v kvs (by decide)]

theorem setKey_setKey_same (k : String) (v v2 : JSON) (kvs : Assoc) :
    setKey k v2 (setKey k v kvs) = setKey k v2 kvs := by
  induction kvs with
  | nil => simp [setKey]
  | cons p rest ih =>
      obtain ⟨k3, v3⟩ := p
      by_cases h : k3 = k
      · simp [setKey, h]
      · simp [setKey, h, ih]

theorem setKey_eq_of_lookup (k : String) (v : JSON) (kvs : Assoc)
    (h : lookupKey k kvs = some v) : setKey k v kvs = kvs := by
  induction kvs with
  | nil => simp [lookupKey] at h
  | cons p rest ih =>
      obtain ⟨k2, v2⟩ := p
      by_cases h2 : k2 = k
      · subst h2
        simp [lookupKey] at h
        simp [setKey, h]
      · simp [lookupKey, h2] at h
        simp [setKey, h2, ih h]

theorem renumberFrom_length (l : List Assoc) (n : Nat) :
    (renumberFrom n l).length = l.length := by
  induction l generalizing n with
  | nil => rfl
  | cons kvs rest ih => simp [renumberFrom, ih]

theorem renumberFrom_get? (l : List Assoc) (n i : Nat) :
    (renumberFrom n l).get? i =
      (l.get? i).map (setKey "correction_number" (JSON.int (Int.ofNat (n + i + 1)))) := by
  induction l generalizing n i with
  | nil => simp [renumberFrom]
  | cons kvs rest ih =>
      cases i with
      | zero => simp [renumberFrom]
      | succ j =>
          have harith : n + 1 + j + 1 = n + (j + 1) + 1 := by omega
          simp only [renumberFrom, List.get?]
          rw [ih (n + 1) j, harith]

theorem mem_renumberFrom (l : List Assoc) (n : Nat) (kvs2 : Assoc)
    (h : kvs2 ∈ renumberFrom n l) :
    ∃ m kvs, kvs ∈ l ∧ kvs2 = setKey "correction_number" (JSON.int m) kvs := by
  induction l generalizing n with
  | nil => simp [renumberFrom] at h
  | cons kvs rest ih =>
      simp only [renumberFrom, List.mem_cons] at h
      cases h with
      | inl h => exact ⟨Int.ofNat (n + 1), kvs, List.mem_cons_self kvs rest, h⟩
      | inr h =>
          obtain ⟨m, kvs0, hmem, heq⟩ := ih (n + 1) h
          exact ⟨m, kvs0, List.mem_cons_of_mem kvs hmem, heq⟩

theorem mem_filterStep (l : List JSON) (kvs : Assoc) (h : kvs ∈ filterStep l) :
    keepKvs kvs = true := by
  induction l with
  | nil => simp [filterStep] at h
  | cons x rest ih =>
      cases x with
      | dict kvs2 =>
          by_cases hk : keepKvs kvs2
          · simp only [filterStep, if_pos hk, List.mem_cons] at h
            cases h with
            | inl h => exact h ▸ hk
            | inr h => exact ih h
          · simp only [filterStep, if_neg hk] at h
            exact ih h
      | null => exact ih (by simpa [filterStep] using h)
      | bool b => exact ih (by simpa [filterStep] using h)
      | int n => exact ih (by simpa [filterStep] using h)
      | str s => exact ih (by simpa [filterStep] using h)
      | arr xs => exact ih (by simpa [filterStep] using h)


theorem filterStep_cons_nonDict (x : JSON) (l : List JSON) (h : isDict x = false) :
    filterStep (x :: l) = filterStep l := by
  cases x <;> simp_all [filterStep, isDict]

theorem filterStep_append (l1 l2 : List JSON) :
    filterStep (l1 ++ l2) = filterStep l1 ++ filterStep l2 := by
  induction l1 with
  | nil => rfl
  | cons x rest ih =>
      cases x with
      | dict kvs =>
          by_cases hk : keepKvs kvs <;>
            simp [filterStep, hk, ih]
      | null => simpa [filterStep] using ih
      | bool b => simpa [filterStep] using ih
      | int n => simpa [filterStep] using ih
      | str s => simpa [filterStep] using ih
      | arr xs => simpa [filterStep] using ih

/-- The filter loop is exactly a stable filter over the dict elements of the
payload: it keeps the surviving dicts in their original relative order. -/
theorem filterStep_eq_filter (l : List JSON) :
    filterStep l = (l.filterMap asDict).filter keepKvs := by
  induction l with
  | nil => rfl
  | cons x rest ih =>
      cases x with
      | dict kvs =>
          by_cases hk : keepKvs kvs <;>
            simp [filterStep, asDict, List.filterMap_cons, List.filter_cons, hk, ih]
      | null => simpa [filterStep, asDict, List.filterMap_cons] using ih
      | bool b => simpa [filterStep, asDict, List.filterMap_cons] using ih
      | int n => simpa [filterStep, asDict, List.filterMap_cons] using ih
      | str s => simpa [filterStep, asDict, List.filterMap_cons] using ih
      | arr xs => simpa [filterStep, asDict, List.filterMap_cons] using ih

theorem filterStep_sublist (l : List JSON) :
    List.Sublist (filterStep l) (l.filterMap asDict) := by
  rw [filterStep_eq_filter]
  exact List.filter_sublist (l.filterMap asDict)


theorem sepCountFrom_cons (prev : Option Char) (c : Char) (cs : List Char) :
    sepCountFrom prev (c :: cs) =
      (if c = '|' ∧ prev ≠ some '\\' then 1 else 0) + sepCountFrom (some c) cs :=
  rfl

theorem sepCountFrom_append (a b : List Char) :
    ∀ prev, sepCountFrom prev (a ++ b) =
      sepCountFrom prev a + sepCountFrom (lastFrom prev a) b := by
  induction a with
  | nil => intro prev; simp [sepCountFrom, lastFrom]
  | cons c cs ih =>
      intro prev
      have hl : lastFrom prev (c :: cs) = lastFrom (some c) cs := rfl
      rw [List.cons_append, sepCountFrom_cons, sepCountFrom_cons, ih (some c), hl]
      omega

theorem sepCountFrom_of_no_pipe (l : List Char) (h : '|' ∉ l) :
    ∀ prev, sepCountFrom prev l = 0 := by
  induction l with
  | nil => intro prev; rfl
  | cons c cs ih =>
      intro prev
      simp only [List.mem_cons, not_or] at h
      simp only [sepCountFrom]
      rw [if_neg (fun hx => h.1 hx.1.symm)]
      simpa using ih h.2 (some c)

/-- Every pipe in an escaped cell is immediately preceded by a backslash, so
an escaped cell contributes no column separator, whatever precedes it. -/
theorem sepCountFrom_escaped (l : List Char) :
    ∀ prev, sepCountFrom prev (escapeNewlines (escapePipes l)) = 0 := by
  induction l with
  | nil => intro prev; rfl
  | cons c cs ih =>
      intro prev
      by_cases hp : c = '|'
      · subst hp
        have hrw : escapeNewlines (escapePipes ('|' :: cs)) =
            '\\' :: '|' :: escapeNewlines (escapePipes cs) := by
          simp [escapePipes, escapeNewlines]
        rw [hrw]
        simp only [sepCountFrom]
        rw [if_neg (fun hx => by exact absurd hx.1 (by decide)),
          if_neg (fun hx => hx.2 rfl)]
        simpa using ih (some '|')
      · by_cases hn : c = '\n'
        · subst hn
          have hrw : escapeNewlines (escapePipes ('\n' :: cs)) =
              '<' :: 'b' :: 'r' :: '>' :: escapeNewlines (escapePipes cs) := by
            simp [escapePipes, escapeNewlines]
          rw [hrw]
          simp only [sepCountFrom]
          rw [if_neg (fun hx => by exact absurd hx.1 (by decide)),
            if_neg (fun hx => by exact absurd hx.1 (by decide)),
            if_neg (fun hx => by exact absurd hx.1 (by decide)),
            if_neg (fun hx => by exact absurd hx.1 (by decide))]
          simpa using ih (some '>')
        · have hrw : escapeNewlines (escapePipes (c :: cs)) =
              c :: escapeNewlines (escapePipes cs) := by
            simp [escapePipes, escapeNewlines, hp, hn]
          rw [hrw]
          simp only [sepCountFrom]
          rw [if_neg (fun hx => hp hx.1)]
          simpa using ih (some c)

/-- The `<br>` substitution removes every line break from a cell. -/
theorem no_newline_escaped (l : List Char) : '\n' ∉ escapeNewlines l := by
  induction l with
  | nil => simp [escapeNewlines]
  | cons c cs ih =>
      by_cases hn : c = '\n'
      · subst hn
        simpa [escapeNewlines] using ih
      · simpa [escapeNewlines, hn, Ne.symm hn] using ih

theorem sepCountFrom_joinSep (cells : List String)
    (hc : ∀ c ∈ cells, ∀ prev, sepCountFrom prev c.data = 0) :
    ∀ prev, sepCountFrom prev (joinSep " | " cells).data = cells.length - 1 := by
  induction cells with
  | nil => intro prev; rfl
  | cons c rest ih =>
      intro prev
      cases rest with
      | nil =>
          simpa [joinSep] using hc c (by simp) prev
      | cons c2 rest2 =>
          have hdata : (joinSep " | " (c :: c2 :: rest2)).data =
              c.data ++ (" | ".data ++ (joinSep " | " (c2 :: rest2)).data) := by
            simp [joinSep, String.data_append]
          rw [hdata, sepCountFrom_append, sepCountFrom_append]
          have h1 : ∀ p, sepCountFrom p " | ".data = 1 := by
            intro p
            show sepCountFrom p (' ' :: '|' :: ' ' :: []) = 1
            rw [sepCountFrom_cons, if_neg (fun hx => absurd hx.1 (by decide)),
              sepCountFrom_cons, if_pos ⟨rfl, by decide⟩,
              sepCountFrom_cons, if_neg (fun hx => absurd hx.1 (by decide))]
            rfl
          rw [hc c (by simp) prev, h1,
            ih (fun x hx => hc x (List.mem_cons_of_mem c hx)) _]
          simp only [List.length_cons]
          omega

/-- Column-separator count of a rendered row whose cells contribute no
separators: one more than the number of cells (two for an empty cell
list, since `"| " + "" + " |"` still shows two pipes). -/
theorem sepCount_mkRow (cells : List String)
    (hc : ∀ c ∈ cells, ∀ prev, sepCountFrom prev c.data = 0) :
    sepCount (mkRow cells) = if cells = [] then 2 else cells.length + 1 := by
  have hdata : (mkRow cells).data =
      "| ".data ++ ((joinSep " | " cells).data ++ " |".data) := by
    simp [mkRow, String.data_append]
  have hlast : sepCountFrom none "| ".data = 1 := by decide
  have htail : ∀ prev, sepCountFrom prev " |".data = 1 := by
    intro prev
    show sepCountFrom prev (' ' :: '|' :: []) = 1
    rw [sepCountFrom_cons, if_neg (fun hx => absurd hx.1 (by decide)),
      sepCountFrom_cons, if_pos ⟨rfl, by decide⟩]
    rfl
  unfold sepCount
  rw [hdata, sepCountFrom_append, sepCountFrom_append, hlast,
    sepCountFrom_joinSep cells hc, htail]
  cases cells with
  | nil => simp
  | cons c rest => simp; omega

theorem json_to_markdown_table_eq (loads : String → Option JSON) (resp : LlmResponse) :
    json_to_markdown_table loads resp =
      match acceptedPayload loads resp with
      | none => resp
      | some xs => renderResponse xs := by
  obtain ⟨c⟩ := resp
  cases c with
  | none => rfl
  | some content =>
      obtain ⟨r, ps⟩ := content
      cases ps with
      | none => rfl
      | some parts =>
          cases parts with
          | nil => rfl
          | cons p ps2 =>
              cases hs : scanParts loads (p :: ps2) with
              | none => simp [json_to_markdown_table, acceptedPayload, hs]
              | some v =>
                  cases v <;> simp [json_to_markdown_table, acceptedPayload, hs]

theorem filterStep_map_dict_of_keep (l : List Assoc)
    (h : ∀ kvs ∈ l, keepKvs kvs = true) :
    filterStep (l.map JSON.dict) = l := by
  induction l with
  | nil => rfl
  | cons kvs rest ih =>
      simp only [List.map_cons, filterStep, if_pos (h kvs (by simp))]
      rw [ih (fun x hx => h x (List.mem_cons_of_mem kvs hx))]

theorem renumberFrom_eq_self (l : List Assoc) :
    ∀ n, (∀ i kvs, l.get? i = some kvs →
      lookupKey "correction_number" kvs = some (JSON.int (Int.ofNat (n + i + 1)))) →
    renumberFrom n l = l := by
  induction l with
  | nil => intro n h; rfl
  | cons kvs rest ih =>
      intro n h
      have h0 : lookupKey "correction_number" kvs =
          some (JSON.int (Int.ofNat (n + 1))) := h 0 kvs rfl
      simp only [renumberFrom]
      rw [setKey_eq_of_lookup _ _ _ h0, ih (n + 1) ?_]
      intro i kvs2 hi
      have hrec := h (i + 1) kvs2 (by simpa using hi)
      have harith : n + (i + 1) + 1 = n + 1 + i + 1 := by omega
      rw [harith] at hrec
      exact hrec

theorem renumberFrom_idem (l : List Assoc) :
    ∀ n, renumberFrom n (renumberFrom n l) = renumberFrom n l := by
  induction l with
  | nil => intro n; rfl
  | cons kvs rest ih =>
      intro n
      simp only [renumberFrom]
      rw [setKey_setKey_same, ih (n + 1)]

/-! ### Claim theorems -/

/-- C1: for every accepted payload, a record whose `text_before_revision`
and `text_after_revision` coincide after trimming never appears as a table
row: every record in the row list of the substituted response has differing
trimmed texts, and the substituted response is rendered exactly from that
row list (`renderResponse` maps `dataRowStr` over `rowRecords`). -/
theorem c1_noop_correction_never_rendered (loads : String → Option JSON)
    (resp : LlmResponse) (xs : List JSON) (kvs : Assoc)
    (hacc : acceptedPayload loads resp = some xs)
    (hmem : kvs ∈ rowRecords xs) :
    pyStrip (getFieldStr "text_before_revision" kvs) ≠
      pyStrip (getFieldStr "text_after_revision" kvs) ∧
    json_to_markdown_table loads resp = renderResponse xs := by
  constructor
  · obtain ⟨m, kvs0, hmem0, rfl⟩ := mem_renumberFrom (filterStep xs) 0 kvs hmem
    have hkeep := mem_filterStep xs kvs0 hmem0
    rw [getFieldStr_setKey_ne _ _ _ _ (by decide),
      getFieldStr_setKey_ne _ _ _ _ (by decide)]
    simpa [keepKvs] using hkeep
  · rw [json_to_markdown_table_eq, hacc]

/-- C1 witness: a concrete accepted payload whose surviving record has
differing trimmed texts. -/
theorem c1_witness :
    pyStrip (getFieldStr "text_before_revision" kvsAB) ≠
      pyStrip (getFieldStr "text_after_revision" kvsAB) :=
  (c1_noop_correction_never_rendered loadsAB respAB payloadAB kvsAB rfl
    (by
      have h : rowRecords payloadAB = [kvsAB] := rfl
      rw [h]
      exact List.mem_singleton.mpr rfl)).1

/-- C2: the record at index `i` of the row list carries correction number
`i + 1` (so the N survivors are numbered exactly 1..N in order), renders it
as the decimal string, agrees with the i-th filtered record on every other
key (renumbering is positional, ignoring any supplied numbering), and the
filtering is an order-preserving sublist of the payload's dict records
(stable, no reordering). -/
theorem c2_renumbering_contiguous (l : List JSON) (i : Nat) (kvs : Assoc)
    (h : (rowRecords l).get? i = some kvs) :
    lookupKey "correction_number" kvs = some (JSON.int (Int.ofNat (i + 1))) ∧
    cellValue kvs "correction_number" = toString (Int.ofNat (i + 1)) ∧
    (∀ k, k ≠ "correction_number" → ∃ kvs0, (filterStep l).get? i = some kvs0 ∧
      lookupKey k kvs = lookupKey k kvs0) ∧
    List.Sublist (filterStep l) (l.filterMap asDict) := by
  rw [show rowRecords l = renumberFrom 0 (filterStep l) from rfl,
    renumberFrom_get? (filterStep l) 0 i] at h
  cases h0 : (filterStep l).get? i with
  | none => rw [h0] at h; simp at h
  | some kvs0 =>
      rw [h0] at h
      simp only [Option.map_some'] at h
      have hz : (0 : Nat) + i + 1 = i + 1 := by omega
      rw [hz] at h
      have hk : setKey "correction_number" (JSON.int (Int.ofNat (i + 1))) kvs0 = kvs :=
        Option.some.inj h
      subst hk
      refine ⟨lookup_setKey_self _ _ _, ?_, ?_, filterStep_sublist l⟩
      · simp [cellValue, lookup_setKey_self, pyStr]
      · intro k hk2
        exact ⟨kvs0, rfl, lookup_setKey_ne _ _ _ _ hk2⟩

/-- C2 witness: a supplied correction number 7 is replaced by 1. -/
theorem c2_witness :
    lookupKey "correction_number" kvsAB = some (JSON.int (Int.ofNat 1)) :=
  (c2_renumbering_contiguous payloadNum 0 kvsAB rfl).1

/-- C3: the function returns the original response object exactly in the
pass-through cases — no content, absent or empty parts, no part's text
parses, or the first successful parse is neither a dict with a
"corrections" sequence nor directly a sequence (the cases where
`acceptedPayload` is `none`) — and otherwise substitutes the rendered-table
response built from the accepted payload. -/
theorem c3_pass_through_exact (loads : String → Option JSON) (resp : LlmResponse) :
    (acceptedPayload loads resp = none → json_to_markdown_table loads resp = resp) ∧
    (∀ xs, acceptedPayload loads resp = some xs →
      json_to_markdown_table loads resp = renderResponse xs) := by
  constructor
  · intro h
    rw [json_to_markdown_table_eq, h]
  · intro xs h
    rw [json_to_markdown_table_eq, h]

/-- C3 witness: a response without content is returned unchanged. -/
theorem c3_witness :
    json_to_markdown_table loadsEmptyArr respNoContent = respNoContent :=
  (c3_pass_through_exact loadsEmptyArr respNoContent).1 rfl

/-- C4: the embedding of `json_to_markdown_table` is a total function (the
Python code catches `JSONDecodeError` and type-checks every element, so no
input raises): on every input it returns either the original response or
the substituted rendered response; and an element of a recognized payload
that is not a mapping contributes no record — removing it from anywhere in
the payload leaves the filtered row source unchanged. -/
theorem c4_total_and_drops_non_dicts (loads : String → Option JSON)
    (resp : LlmResponse) (x : JSON) (l1 l2 : List JSON) (hx : isDict x = false) :
    (json_to_markdown_table loads resp = resp ∨
      ∃ xs, acceptedPayload loads resp = some xs ∧
        json_to_markdown_table loads resp = renderResponse xs) ∧
    filterStep (l1 ++ x :: l2) = filterStep (l1 ++ l2) := by
  constructor
  · rw [json_to_markdown_table_eq]
    cases h : acceptedPayload loads resp with
    | none => exact Or.inl rfl
    | some xs => exact Or.inr ⟨xs, rfl, rfl⟩
  · rw [filterStep_append, filterStep_append, filterStep_cons_nonDict x l2 hx]

/-- C4 witness: a stray integer element contributes nothing. -/
theorem c4_witness : filterStep ([] ++ JSON.int 3 :: []) = filterStep ([] ++ []) :=
  (c4_total_and_drops_non_dicts loadsEmptyArr respNoContent (JSON.int 3) [] [] rfl).2

/-- C5: when the accepted payload leaves zero surviving records, the
function still substitutes (never returning the original response object in
this branch): the result is the freshly built `renderResponse`, whose table
is exactly the fixed heading followed by a degenerate header row and a
separator row, with no data rows. -/
theorem c5_zero_survivors_table (loads : String → Option JSON)
    (resp : LlmResponse) (xs : List JSON)
    (hacc : acceptedPayload loads resp = some xs)
    (hzero : filterStep xs = []) :
    json_to_markdown_table loads resp = renderResponse xs ∧
    renderTable xs =
      "\n## Document Audit Results\n\nThe following table shows the audit findings:\n\n|  |\n|  |" ∧
    (renderResponse xs).content =
      some { role := some "model",
             parts := some [ContentPart.mk (some (renderTable xs))] } := by
  refine ⟨by rw [json_to_markdown_table_eq, hacc], ?_, rfl⟩
  simp only [renderTable, rowRecords, hzero]
  rfl

/-- C5 witness: the empty payload still yields a header-and-separator
table. -/
theorem c5_witness :
    renderTable ([] : List JSON) =
      "\n## Document Audit Results\n\nThe following table shows the audit findings:\n\n|  |\n|  |" :=
  (c5_zero_survivors_table loadsEmptyArr respUserRole [] rfl rfl).2.1

/-- C6 counterexample: the claim fails as stated.  For the accepted payload
`payloadPipeKey`, whose record has the extra key "a|b", the header row
inserts the key name unescaped (6 column separators) while the escaped data
row shows 5, so not every data row matches the header's separator count. -/
theorem c6_counterexample :
    ¬ ∀ row ∈ (rowRecords payloadPipeKey).map
        (dataRowStr (computeHeaders (rowRecords payloadPipeKey))),
      sepCount row = sepCount (headerRowStr (computeHeaders (rowRecords payloadPipeKey))) := by
  decide

/-- C6 (amended): pipes in cell values are escaped and embedded line breaks
replaced by the inline marker, so — provided the header keys themselves
contain no pipe character (the code inserts key names unescaped, see the
counterexample) — every rendered data row shows exactly as many column
separators as the header row. -/
theorem c6_escaping_preserves_columns (headers : List String) (kvs : Assoc)
    (hh : ∀ h2 ∈ headers, '|' ∉ h2.data) :
    sepCount (dataRowStr headers kvs) = sepCount (headerRowStr headers) ∧
    (∀ s, '\n' ∉ (escapeCell s).data) := by
  constructor
  · have hcells : ∀ c ∈ headers.map (fun h2 => escapeCell (cellValue kvs h2)),
        ∀ prev, sepCountFrom prev c.data = 0 := by
      intro c hc prev
      obtain ⟨h2, hmem, rfl⟩ := List.mem_map.mp hc
      exact sepCountFrom_escaped (cellValue kvs h2).data prev
    have hheads : ∀ c ∈ headers, ∀ prev, sepCountFrom prev c.data = 0 := by
      intro c hc prev
      exact sepCountFrom_of_no_pipe c.data (hh c hc) prev
    rw [dataRowStr, headerRowStr, sepCount_mkRow _ hcells, sepCount_mkRow _ hheads]
    cases headers <;> simp
  · intro s
    exact no_newline_escaped (escapePipes s.data)

/-- C6 witness: a cell containing a pipe still lines up with its header. -/
theorem c6_witness :
    sepCount (dataRowStr ["severity"] [("severity", JSON.str "x|y")]) =
      sepCount (headerRowStr ["severity"]) :=
  (c6_escaping_preserves_columns ["severity"] [("severity", JSON.str "x|y")]
    (by decide)).1

/-- C7: the filter-and-renumber step is idempotent.  A list of mapping
records none of which is a no-op (trimmed before ≠ trimmed after) passes
the filter unchanged, and when it is moreover already numbered 1..N in
order the whole step is the identity on it; equivalently, running the step
twice equals running it once, on any payload. -/
theorem c7_filter_renumber_idempotent (l : List Assoc)
    (hkeep : ∀ kvs ∈ l, keepKvs kvs = true)
    (hnum : ∀ i kvs, l.get? i = some kvs →
      lookupKey "correction_number" kvs = some (JSON.int (Int.ofNat (i + 1)))) :
    rowRecords (l.map JSON.dict) = l ∧
    (∀ l2 : List JSON, rowRecords ((rowRecords l2).map JSON.dict) = rowRecords l2) := by
  constructor
  · rw [show rowRecords (l.map JSON.dict) =
        renumberFrom 0 (filterStep (l.map JSON.dict)) from rfl,
      filterStep_map_dict_of_keep l hkeep]
    exact renumberFrom_eq_self l 0
      (fun i kvs hi => by simpa [Nat.zero_add] using hnum i kvs hi)
  · intro l2
    have hkeep2 : ∀ kvs ∈ renumberFrom 0 (filterStep l2), keepKvs kvs = true := by
      intro kvs hm
      obtain ⟨m, kvs0, hmem0, rfl⟩ := mem_renumberFrom (filterStep l2) 0 kvs hm
      rw [keepKvs_setKey_correction_number]
      exact mem_filterStep l2 kvs0 hmem0
    rw [show rowRecords ((rowRecords l2).map JSON.dict) =
        renumberFrom 0 (filterStep ((renumberFrom 0 (filterStep l2)).map JSON.dict)) from rfl,
      filterStep_map_dict_of_keep _ hkeep2,
      renumberFrom_idem (filterStep l2) 0]
    rfl

/-- C7 witness: an already-filtered, already-numbered singleton list is
left unchanged by the whole step. -/
theorem c7_witness : rowRecords (filteredFix.map JSON.dict) = filteredFix :=
  (c7_filter_renumber_idempotent filteredFix (by decide)
    (by
      intro i kvs hi
      cases i with
      | zero =>
          have hk : kvs = kvsAB := by
            simpa [filteredFix, List.get?] using hi.symm
          subst hk
          rfl
      | succ j => simp [filteredFix, List.get?] at hi)).1

/-- C8 counterexample: the claim fails as stated — the substituted
response's role metadata does not equal the original role for every
original role value, because tools.py line 135 hard-codes role="model".
Concretely, an original response whose content role is "user" is replaced
by one whose content role is "model". -/
theorem c8_counterexample :
    (json_to_markdown_table loadsEmptyArr respUserRole).content.map Content.role ≠
      respUserRole.content.map Content.role := by
  decide

/-- C8 (amended): whenever the function substitutes the response, the new
content is a single text segment holding the rendered table, with role
metadata the literal "model" — preserved exactly when the original role was
"model", overwritten otherwise. -/
theorem c8_substitution_shape (loads : String → Option JSON)
    (resp : LlmResponse) (xs : List JSON)
    (hacc : acceptedPayload loads resp = some xs) :
    (json_to_markdown_table loads resp).content =
      some { role := some "model",
             parts := some [ContentPart.mk (some (renderTable xs))] } := by
  rw [json_to_markdown_table_eq, hacc]
  rfl

/-- C8 witness: the substituted response for the role-"user" original. -/
theorem c8_witness :
    (json_to_markdown_table loadsEmptyArr respUserRole).content =
      some { role := some "model",
             parts := some [ContentPart.mk (some (renderTable ([] : List JSON)))] } :=
  c8_substitution_shape loadsEmptyArr respUserRole [] rfl

/-- C9 counterexample: the claim fails as stated — not every stage of the
statically built pipeline declares an output key: the final aggregation
agent's constructor passes no `output_key` (agent.py lines 72-83); its
result reaches the caller through the `after_model_callback` instead of the
shared context. -/
theorem c9_counterexample :
    ¬ ∀ a ∈ audit_pipeline_sub_agents, a.output_key.isSome = true := by
  decide

/-- C9 (amended): the first three stages (retrieval, first-pass review,
second-pass review) each declare the context key their output is written
under, in pipeline order; the final aggregation stage declares none. -/
theorem c9_output_keys :
    audit_pipeline_sub_agents.map LlmAgentDecl.output_key =
      [some "file_content", some "spelling_grammar_audit_result",
       some "guidelines_compliance_audit_result", none] := rfl

/-- C10: a mapping record lacking both revision-text keys defaults both
fields to the empty string, so the equality filter drops it even when it
carries a location and a reason; likewise a record whose two field values
coerce via `str()` and trimming to the same string — the number 5 and the
string "5" — is dropped. -/
theorem c10_missing_fields_filtered (kvs : Assoc) (l1 l2 : List JSON)
    (hb : lookupKey "text_before_revision" kvs = none)
    (ha : lookupKey "text_after_revision" kvs = none) :
    keepKvs kvs = false ∧
    filterStep (l1 ++ JSON.dict kvs :: l2) = filterStep (l1 ++ l2) ∧
    keepKvs [("text_before_revision", JSON.int 5), ("text_after_revision", JSON.str "5"),
      ("specific_location", JSON.str "S1")] = false := by
  have hkf : keepKvs kvs = false := by
    simp [keepKvs, getFieldStr, hb, ha]
  refine ⟨hkf, ?_, by decide⟩
  rw [filterStep_append, filterStep_append]
  congr 1
  simp [filterStep, hkf]

/-- C10 witness: a record with only a location and a reason is dropped. -/
theorem c10_witness : keepKvs kvsLocOnly = false :=
  (c10_missing_fields_filtered kvsLocOnly [] [] rfl rfl).1
